import Mathlib

/-!
Verification of the zotero-comfort literature-integration layer.

Strings are modelled as `List Char`; Python string operations
(`str.replace`, `str.strip`, `str.lower`, regular-expression matching on
the concrete patterns used by the code) are embedded as executable
structural functions.  Network calls are modelled by oracles (structures
of functions) and the embedded operations additionally return the list
of remote effects they perform, so that frame conditions ("no call is
made") are statable.
-/

namespace ZC

abbrev Str := List Char

/-- Python `str.strip` whitespace set (ASCII part). -/
def isPySpace (c : Char) : Bool :=
  c = ' ' || c = '\t' || c = '\n' || c = '\x0d' || c = '\x0b' || c = '\x0c'

/-- Python `str.lower` (ASCII semantics). -/
def lowerStr (s : Str) : Str := s.map Char.toLower

/-- Remove leading whitespace (left part of Python `str.strip`). -/
def lstrip (s : Str) : Str := s.dropWhile isPySpace

/-- Remove trailing whitespace (right part of Python `str.strip`). -/
def rstrip : Str → Str
  | [] => []
  | c :: rest =>
    let r := rstrip rest
    if r.isEmpty && isPySpace c then [] else c :: r

/-- Python `str.strip`: removes whitespace at both ends. -/
def pyStrip (s : Str) : Str := rstrip (lstrip s)

/-- Fuelled worker for `removeAll`.  At each position, if the (non-empty)
pattern occurs, it is skipped; this is Python's left-to-right
non-overlapping `str.replace(pat, "")`. -/
def removeAllF : Nat → Str → Str → Str
  | 0, _, s => s
  | _ + 1, _, [] => []
  | n + 1, pat, c :: rest =>
    if !pat.isEmpty && pat.isPrefixOf (c :: rest) then
      removeAllF n pat ((c :: rest).drop pat.length)
    else
      c :: removeAllF n pat rest

/-- Python `s.replace(pat, "")`: delete every non-overlapping occurrence
of `pat`, scanning left to right. -/
def removeAll (pat s : Str) : Str := removeAllF s.length pat s

/-- Substring test: Python's `pat in s`. -/
def containsSub (pat : Str) : Str → Bool
  | [] => pat.isEmpty
  | c :: rest => pat.isPrefixOf (c :: rest) || containsSub pat rest

def httpsPref : Str := "https://doi.org/".toList
def httpPref : Str := "http://doi.org/".toList
def doiColon : Str := "doi:".toList

/-- The prefix-removal and trimming pipeline of
`ZoteroWorkflows._normalize_doi`: three `str.replace(_, "")` calls
followed by `str.strip()`. -/
def doiPipeline (s : Str) : Str :=
  pyStrip (removeAll doiColon (removeAll httpPref (removeAll httpsPref s)))

/-- `re.match(r"^10\.\d{4,}/", s)`: an anchored match of "10." followed
by four or more digits and a '/'. -/
def matchDoiStart (s : Str) : Bool :=
  match s with
  | '1' :: '0' :: '.' :: rest =>
    let ds := rest.takeWhile Char.isDigit
    decide (4 ≤ ds.length) &&
      (match rest.drop ds.length with
       | '/' :: _ => true
       | _ => false)
  | _ => false

/-- `ZoteroWorkflows._normalize_doi`: strip URL/`doi:` markers (via
`str.replace`), trim, then validate against `^10\.\d{4,}/`. -/
def normalize_doi (s : Str) : Option Str :=
  let t := doiPipeline s
  if matchDoiStart t then some t else none

/-- Modelled from the spec: the claimed behaviour of `normalizeDoi` —
strips a single *leading* `https://doi.org/`, `http://doi.org/` or
`doi:` prefix (longest first), trims whitespace, and validates against
`10\.\d{4,}/.+` with a *non-empty* remainder. -/
def specStripLead (s : Str) : Str :=
  if httpsPref.isPrefixOf s then s.drop httpsPref.length
  else if httpPref.isPrefixOf s then s.drop httpPref.length
  else if doiColon.isPrefixOf s then s.drop doiColon.length
  else s

/-- Modelled from the spec: anchored match of `10\.\d{4,}/.+`
(non-empty remainder after the slash). -/
def specMatchDoiFull (s : Str) : Bool :=
  match s with
  | '1' :: '0' :: '.' :: rest =>
    let ds := rest.takeWhile Char.isDigit
    decide (4 ≤ ds.length) &&
      (match rest.drop ds.length with
       | '/' :: r => !r.isEmpty
       | _ => false)
  | _ => false

/-- Modelled from the spec: `normalizeDoi` as the claim describes it. -/
def specNormalizeDoi (s : Str) : Option Str :=
  let t := pyStrip (specStripLead s)
  if specMatchDoiFull t then some t else none

/-- Declarative shape of a string accepted by `^10\.\d{4,}/`:
"10." then at least four digits then '/' then anything. -/
def DoiShape (y : Str) : Prop :=
  ∃ ds rest, y = '1' :: '0' :: '.' :: (ds ++ '/' :: rest) ∧
    4 ≤ ds.length ∧ ∀ c ∈ ds, c.isDigit = true

end ZC

namespace ZC

/-- Digit run to number: `int` applied to a digit string. -/
def digitsToNat (ds : Str) : Nat :=
  ds.foldl (fun acc c => 10 * acc + (c.toNat - '0'.toNat)) 0

/-- Four consecutive digits at the head of the list? -/
def fourDigitsHere (s : Str) : Bool :=
  match s with
  | a :: b :: c :: d :: _ => a.isDigit && b.isDigit && c.isDigit && d.isDigit
  | _ => false

/-- `re.search(r"\d{4}", s)`: the first position with four consecutive
digits; returns those four characters. -/
def findRun4 : Str → Option Str
  | [] => none
  | c :: rest =>
    if fourDigitsHere (c :: rest) then some ((c :: rest).take 4)
    else findRun4 rest

/-- `ZoteroWorkflows._extract_year`: first `\d{4}` match as an integer,
`0` when there is none. -/
def wf_extract_year (s : Str) : Nat :=
  match findRun4 s with
  | some ds => digitsToNat ds
  | none => 0

/-- `ZoteroWorkflows._extract_year_str`: first `\d{4}` match as a
string, `""` when there is none. -/
def wf_extract_year_str (s : Str) : Str :=
  match findRun4 s with
  | some ds => ds
  | none => []

/-- `PubMedClient._extract_year`: `None` on the empty string, otherwise
the first `\d{4}` match as an integer, `None` when there is none. -/
def pm_extract_year (s : Str) : Option Nat :=
  if s.isEmpty then none
  else
    match findRun4 s with
    | some ds => some (digitsToNat ds)
    | none => none

/-- Modelled from the spec: `extractYear` as the claim describes it —
the first *maximal* run of exactly 4 digits, as an integer, else null.
The accumulator holds the current digit run, reversed. -/
def specExtractYearGo (cur : Str) : Str → Option Nat
  | [] => if cur.length = 4 then some (digitsToNat cur.reverse) else none
  | c :: rest =>
    if c.isDigit then specExtractYearGo (c :: cur) rest
    else if cur.length = 4 then some (digitsToNat cur.reverse)
    else specExtractYearGo [] rest

/-- Modelled from the spec: first run of exactly 4 digits, else null. -/
def specExtractYear (s : Str) : Option Nat := specExtractYearGo [] s

end ZC

namespace ZC

/-! ## Institutional client deduplication (`ChariteClient._deduplicate`) -/

/-- A publication record as `_deduplicate` sees it: only the `doi` and
`title` fields influence deduplication; `payload` stands for the rest of
the dict so that distinct records with equal keys stay distinct. -/
structure Pub where
  doi : Option Str
  title : Str
  payload : Nat
  deriving DecidableEq, Repr

/-- Python truthiness of `pub.get("doi")`. -/
def doiTruthy : Option Str → Bool
  | none => false
  | some s => !s.isEmpty

/-- `doi.lower().strip()` — the DOI dedup key. -/
def doiKeyOf (d : Str) : Str := pyStrip (lowerStr d)

/-- `re.sub(r"[^a-z0-9]", "", title.lower())[:50]` — the title dedup
key. -/
def titleKeyOf (t : Str) : Str :=
  ((lowerStr t).filter fun c =>
    ('a' ≤ c && c ≤ 'z') || ('0' ≤ c && c ≤ '9')).take 50

/-- `ChariteClient._deduplicate`, with the two `seen` sets made
explicit.  A record is skipped when its DOI key was already seen, or —
independently of DOI presence — when its non-empty title key was
already seen; a record surviving the DOI check adds its DOI key even if
it is then dropped by the title check. -/
def dedupGo : List Pub → List Str → List Str → List Pub
  | [], _, _ => []
  | pub :: rest, seenD, seenT =>
    let step : Option (List Str) :=
      match pub.doi with
      | some d =>
        if d.isEmpty then some seenD
        else
          let dk := doiKeyOf d
          if seenD.contains dk then none else some (dk :: seenD)
      | none => some seenD
    match step with
    | none => dedupGo rest seenD seenT
    | some seenD' =>
      let tk := titleKeyOf pub.title
      if tk.isEmpty then pub :: dedupGo rest seenD' seenT
      else if seenT.contains tk then dedupGo rest seenD' seenT
      else pub :: dedupGo rest seenD' (tk :: seenT)

/-- `ChariteClient._deduplicate` (as applied by `fetch_team` to the
concatenated member results). -/
def deduplicate (pubs : List Pub) : List Pub := dedupGo pubs [] []

/-- Modelled from the spec: the claimed Paper-equality invariant — same
publication iff normalized DOIs equal case-insensitively, or, only when
DOI is absent on either record, equal normalized title keys. -/
def specSamePub (a b : Pub) : Bool :=
  (doiTruthy a.doi && doiTruthy b.doi &&
    (match a.doi, b.doi with
     | some da, some db => doiKeyOf da == doiKeyOf db
     | _, _ => false))
  || ((!doiTruthy a.doi || !doiTruthy b.doi) &&
      titleKeyOf a.title == titleKeyOf b.title)

/-- Modelled from the spec: the claimed deduplication — keep a record
iff no earlier-kept record is the same publication under
`specSamePub`. -/
def specDedupGo (kept : List Pub) : List Pub → List Pub
  | [] => []
  | p :: rest =>
    if kept.any fun q => specSamePub q p then specDedupGo kept rest
    else p :: specDedupGo (kept ++ [p]) rest

/-- Modelled from the spec (amended): claimed deduplication. -/
def specDedup (pubs : List Pub) : List Pub := specDedupGo [] pubs

/-- The amended description of `_deduplicate`: drop a record when its
DOI key equals that of any earlier record that itself survived the DOI
check (tracked in `doiKeys`), or when its non-empty title key equals
the title key of an earlier *kept* record — the latter regardless of
DOI presence. -/
def amendedDedupGo (doiKeys : List Str) (kept : List Pub) :
    List Pub → List Pub
  | [] => []
  | p :: rest =>
    let dropByDoi :=
      doiTruthy p.doi &&
        (match p.doi with
         | some d => doiKeys.contains (doiKeyOf d)
         | none => false)
    if dropByDoi then amendedDedupGo doiKeys kept rest
    else
      let doiKeys' :=
        match p.doi with
        | some d => if d.isEmpty then doiKeys else doiKeyOf d :: doiKeys
        | none => doiKeys
      let tk := titleKeyOf p.title
      let dropByTitle :=
        !tk.isEmpty && kept.any fun q => titleKeyOf q.title == tk
      if dropByTitle then amendedDedupGo doiKeys' kept rest
      else p :: amendedDedupGo doiKeys' (kept ++ [p]) rest

/-- The amended deduplication behaviour, started from empty state. -/
def amendedDedup (pubs : List Pub) : List Pub := amendedDedupGo [] [] pubs

end ZC

namespace ZC

/-! ## Workflow layer (`ZoteroWorkflows`) -/

/-- Python truthiness of an optional string. -/
def pyTruthy : Option Str → Bool
  | none => false
  | some s => !s.isEmpty

/-- A creator dict; `none` means the key is absent. -/
structure Creator where
  lastName : Option Str
  firstName : Option Str
  name : Option Str
  creatorType : Option Str
  deriving DecidableEq, Repr

/-- An item dict as the workflow layer reads it; `none` models an
absent key. -/
structure Paper where
  key : Option Str
  title : Option Str
  date : Option Str
  creators : List Creator
  DOI : Option Str
  doi : Option Str
  itemType : Option Str
  publicationTitle : Option Str
  publisher : Option Str
  deriving DecidableEq, Repr

/-- A collection dict (`name` may be absent). -/
structure Collection where
  name : Option Str
  key : Str
  deriving DecidableEq, Repr

/-- The remote operations the workflow layer can invoke, as an oracle:
each field gives the response the MCP client would return. -/
structure WfClient where
  searchItems : Str → Nat → List Paper
  listCollections : List Collection
  getCollectionItems : Str → List Paper
  searchByTag : Str → List Paper

/-- One remote call performed by a workflow. -/
inductive WfEffect
  | search (query : Str) (limit : Nat)
  | listCollections
  | collectionItems (key : Str)
  | tagSearch (tag : Str)
  deriving DecidableEq, Repr

/-- `ZoteroWorkflows.COLLECTION_KEYWORDS` in insertion order. -/
def collectionKeywords : List (Str × Str) :=
  [("fhir", "FHIR"), ("hl7", "FHIR"),
   ("healthcare interoperability", "FHIR"),
   ("snomed", "Terminology"), ("loinc", "Terminology"),
   ("icd", "Terminology"), ("ontology", "Terminology"),
   ("machine learning", "ML"), ("deep learning", "ML"),
   ("neural network", "ML"),
   ("nlp", "NLP"), ("natural language", "NLP"),
   ("clinical", "Clinical"), ("patient", "Clinical"),
   ("ehr", "Clinical"), ("electronic health", "Clinical")
  ].map fun kv => (kv.1.toList, kv.2.toList)

/-- `ZoteroWorkflows._suggest_collection`: first keyword contained in
the lower-cased title wins, else "Uncategorized". -/
def suggest_collection (title : Str) : Str :=
  let tl := lowerStr title
  match collectionKeywords.find? fun kv => containsSub kv.1 tl with
  | some kv => kv.2
  | none => "Uncategorized".toList

/-- `ZoteroWorkflows._extract_doi`: the `DOI` key if truthy, else the
`doi` key; if the chosen value is truthy, normalize it. -/
def extract_doi (p : Paper) : Option Str :=
  let d := if pyTruthy p.DOI then p.DOI else p.doi
  match d with
  | some s => if s.isEmpty then none else normalize_doi s
  | none => none

/-- `ZoteroWorkflows._format_creators`: last names (or `name`) of the
first three creators, comma-joined, with " et al." beyond three. -/
def format_creators (cs : List Creator) : Str :=
  if cs.isEmpty then []
  else
    let names := (cs.take 3).filterMap fun c =>
      match c.lastName with
      | some ln => some ln
      | none => c.name
    let r := List.intercalate ", ".toList names
    if 3 < cs.length then r ++ " et al.".toList else r

/-- One entry of a reading list, as `build_reading_list` formats it. -/
structure FormattedPaper where
  key : Str
  title : Str
  year : Str
  creators : Str
  deriving DecidableEq, Repr

def format_paper (p : Paper) : FormattedPaper :=
  { key := p.key.getD []
    title := p.title.getD "Untitled".toList
    year := wf_extract_year_str (p.date.getD [])
    creators := format_creators p.creators }

structure ReadingList where
  topic : Str
  papersFound : Nat
  papersIncluded : Nat
  papers : List FormattedPaper
  suggestedCollection : Str
  deriving DecidableEq, Repr

/-- `ZoteroWorkflows.build_reading_list`: search (limit 100), filter by
year when `min_year` is truthy, truncate to `max_papers`, format. -/
def build_reading_list (cl : WfClient) (topic : Str) (maxPapers : Nat)
    (minYear : Option Int) : ReadingList × List WfEffect :=
  let allPapers := cl.searchItems topic 100
  let filtered :=
    match minYear with
    | some n =>
      if n ≠ 0 then
        allPapers.filter fun (p : Paper) =>
          n ≤ (wf_extract_year (p.date.getD []) : Int)
      else allPapers
    | none => allPapers
  let selected := filtered.take maxPapers
  ({ topic
     papersFound := allPapers.length
     papersIncluded := (selected.map format_paper).length
     papers := selected.map format_paper
     suggestedCollection := suggest_collection topic },
   [.search topic 100])

inductive AddStatus
  | error | duplicate | ready
  deriving DecidableEq, Repr

/-- The dict returned by `smart_add_paper` (absent keys are `none`). -/
structure SmartAddResult where
  status : AddStatus
  doi : Option Str
  title : Option Str
  duplicateKey : Option Str
  message : Str
  suggestedCollection : Option Str
  deriving DecidableEq, Repr

/-- The duplicate test inside `smart_add_paper`'s loop: the candidate's
extracted DOI is truthy and equals the normalized input DOI
case-insensitively. -/
def dupMatch (d : Str) (p : Paper) : Bool :=
  match extract_doi p with
  | some pd => lowerStr pd == lowerStr d
  | none => false

/-- `ZoteroWorkflows.smart_add_paper`: normalize the DOI (error on
failure, before any remote call), optionally search for duplicates by
the normalized DOI (limit 5), else report "ready" with a collection
suggestion.  The second component lists the remote calls performed. -/
def smart_add_paper (cl : WfClient) (rawDoi : Str)
    (checkDuplicates suggestColl : Bool) :
    SmartAddResult × List WfEffect :=
  match normalize_doi rawDoi with
  | none =>
    ({ status := .error, doi := none, title := none, duplicateKey := none
       message := "Invalid DOI format".toList, suggestedCollection := none },
     [])
  | some d =>
    let ready : SmartAddResult :=
      { status := .ready, doi := some d, title := none, duplicateKey := none
        message :=
          "DOI validated, no duplicates found. Manual add recommended.".toList
        suggestedCollection :=
          if suggestColl then some (suggest_collection d) else none }
    if checkDuplicates then
      match (cl.searchItems d 5).find? (dupMatch d) with
      | some p =>
        ({ status := .duplicate, doi := some d
           title := some (p.title.getD [])
           duplicateKey := some (p.key.getD [])
           message := "Paper already exists in library".toList
           suggestedCollection := none },
         [.search d 5])
      | none => (ready, [.search d 5])
    else (ready, [])

/-- Opening brace, kept out of string literals. -/
def lbrace : Char := Char.ofNat 123

/-- Closing brace, kept out of string literals. -/
def rbrace : Char := Char.ofNat 125

/-- The BibTeX entry type for a Zotero item type
(`_to_bibtex`'s mapping dict, defaulting to "misc"). -/
def bibtexTypeOf (it : Str) : Str :=
  if it == "journalArticle".toList then "article".toList
  else if it == "book".toList then "book".toList
  else if it == "bookSection".toList then "incollection".toList
  else if it == "conferencePaper".toList then "inproceedings".toList
  else if it == "thesis".toList then "phdthesis".toList
  else if it == "report".toList then "techreport".toList
  else "misc".toList

/-- `ZoteroWorkflows._to_bibtex`: `none` when the title is missing or
empty, otherwise the entry lines joined by newlines. -/
def to_bibtex (p : Paper) : Option Str :=
  let key := p.key.getD "unknown".toList
  let title := p.title.getD []
  if title.isEmpty then none
  else
    let bt := bibtexTypeOf (p.itemType.getD "article".toList)
    let line0 := '@' :: bt ++ [lbrace] ++ key ++ ",".toList
    let lineTitle :=
      "  title = ".toList ++ [lbrace] ++ title ++ [rbrace] ++ ",".toList
    let authorParts := p.creators.filterMap fun c =>
      if c.creatorType == some "author".toList then
        some (c.lastName.getD [] ++ ", ".toList ++ c.firstName.getD [])
      else none
    let authors :=
      if p.creators.isEmpty then []
      else List.intercalate " and ".toList authorParts
    let authorLines :=
      if !p.creators.isEmpty && !authors.isEmpty then
        ["  author = ".toList ++ [lbrace] ++ authors ++ [rbrace] ++ ",".toList]
      else []
    let year := wf_extract_year_str (p.date.getD [])
    let yearLines :=
      if !year.isEmpty then
        ["  year = ".toList ++ [lbrace] ++ year ++ [rbrace] ++ ",".toList]
      else []
    let journalLines :=
      match p.publicationTitle with
      | some j =>
        if !j.isEmpty then
          ["  journal = ".toList ++ [lbrace] ++ j ++ [rbrace] ++ ",".toList]
        else []
      | none => []
    let publisherLines :=
      match p.publisher with
      | some pb =>
        if !pb.isEmpty then
          ["  publisher = ".toList ++ [lbrace] ++ pb ++ [rbrace] ++ ",".toList]
        else []
      | none => []
    let doiLines :=
      match p.DOI with
      | some d =>
        if !d.isEmpty then
          ["  doi = ".toList ++ [lbrace] ++ d ++ [rbrace] ++ ",".toList]
        else []
      | none => []
    some (List.intercalate "\n".toList
      ([line0, lineTitle] ++ authorLines ++ yearLines ++ journalLines ++
       publisherLines ++ doiLines ++ [[rbrace]]))

inductive ExportStatus
  | success | error
  deriving DecidableEq, Repr

/-- The dict returned by `export_bibliography` (absent keys `none`). -/
structure ExportResult where
  status : ExportStatus
  message : Option Str
  format : Option Str
  count : Option Nat
  bibliography : Option Str
  deriving DecidableEq, Repr

/-- The tail of `export_bibliography` once `papers` is resolved: empty
result short-circuits as success, then only "bibtex" renders. -/
def renderBibliography (papers : List Paper) (fmt : Str) : ExportResult :=
  if papers.isEmpty then
    { status := .success, message := none, format := some fmt
      count := some 0
      bibliography := some "% No papers found\n".toList }
  else if fmt == "bibtex".toList then
    let entries := papers.filterMap to_bibtex
    { status := .success, message := none, format := some fmt
      count := some entries.length
      bibliography := some (List.intercalate "\n\n".toList entries) }
  else
    { status := .error
      message := some ("Unsupported format: ".toList ++ fmt)
      format := none, count := none, bibliography := none }

/-- `ZoteroWorkflows.export_bibliography`: resolve papers from a
collection name (exact match over `list_collections`) or from a tag,
error when neither selector is truthy; the second component lists the
remote calls performed. -/
def export_bibliography (cl : WfClient) (collectionName tag : Option Str)
    (fmt : Str) : ExportResult × List WfEffect :=
  if pyTruthy collectionName then
    let cn := collectionName.getD []
    match cl.listCollections.find? fun c => c.name == some cn with
    | some c =>
      (renderBibliography (cl.getCollectionItems c.key) fmt,
       [.listCollections, .collectionItems c.key])
    | none =>
      ({ status := .error
         message := some ("Collection not found: ".toList ++ cn)
         format := none, count := none, bibliography := none },
       [.listCollections])
  else if pyTruthy tag then
    let t := tag.getD []
    (renderBibliography (cl.searchByTag t) fmt, [.tagSearch t])
  else
    ({ status := .error
       message := some "Specify collection_name or tag".toList
       format := none, count := none, bibliography := none },
     [])

end ZC

namespace ZC

/-! ## Zotero API client (`ZoteroMCPClient`) -/

/-- Outcome of `get_item`: an exception, a dict containing "error", or
the item's collection memberships and version. -/
inductive ItemFetch
  | exn (msg : Str)
  | errDict (msg : Str)
  | ok (collections : List Str) (version : Nat)

/-- Oracle for the client's remote interactions: what `get_item`
returns per key, and whether a versioned PATCH of an item's
collections succeeds (`none`) or raises (`some` message). -/
structure ZClient where
  fetchItem : Str → ItemFetch
  patchRes : Str → List Str → Nat → Option Str

/-- A remote call performed by the client layer. -/
inductive ZEffect
  | getItem (key : Str)
  | patchCollections (key : Str) (collections : List Str) (version : Nat)
  deriving DecidableEq, Repr

/-- One detail row of `add_items_to_collection`:
(item key, status string, optional error text). -/
abbrev AddDetail := Str × Str × Option Str

/-- The per-item loop of `add_items_to_collection`, left to right. -/
def addItemsGo (cl : ZClient) (ck : Str) :
    List Str → Nat × Nat × List AddDetail
  | [] => (0, 0, [])
  | k :: rest =>
    let res := addItemsGo cl ck rest
    match cl.fetchItem k with
    | .exn m => (res.1, res.2.1 + 1, (k, "error".toList, some m) :: res.2.2)
    | .errDict _ => (res.1, res.2.1 + 1, (k, "error".toList, none) :: res.2.2)
    | .ok cols v =>
      if cols.contains ck then
        (res.1, res.2.1, (k, "already_in_collection".toList, none) :: res.2.2)
      else
        match cl.patchRes k (cols ++ [ck]) v with
        | none => (res.1 + 1, res.2.1, (k, "added".toList, none) :: res.2.2)
        | some m => (res.1, res.2.1 + 1, (k, "error".toList, some m) :: res.2.2)

/-- The aggregate returned by `add_items_to_collection`. -/
structure AddItemsResult where
  status : Str
  added : Nat
  failed : Nat
  details : List AddDetail
  deriving DecidableEq, Repr

/-- `ZoteroMCPClient.add_items_to_collection`: process every key (one
failure never aborts the batch), then downgrade the initial "success"
status to "partial" or "error" when failures occurred. -/
def add_items_to_collection (cl : ZClient) (ck : Str) (keys : List Str) :
    AddItemsResult :=
  let t := addItemsGo cl ck keys
  { status :=
      if 0 < t.2.1 then
        if 0 < t.1 then "partial".toList else "error".toList
      else "success".toList
    added := t.1
    failed := t.2.1
    details := t.2.2 }

/-- The dict returned by `remove_item_from_collection`. -/
structure RemoveResult where
  status : Str
  message : Option Str
  itemKey : Option Str
  collectionKey : Option Str
  error : Option Str
  deriving DecidableEq, Repr

/-- `ZoteroMCPClient.remove_item_from_collection`: fetch the item; when
the target collection is not among its memberships, succeed with
"Item not in collection" and no write; otherwise PATCH the filtered
membership list.  The second component lists the remote calls. -/
def remove_item_from_collection (cl : ZClient) (ck k : Str) :
    RemoveResult × List ZEffect :=
  match cl.fetchItem k with
  | .exn m =>
    ({ status := "error".toList, message := none, itemKey := none
       collectionKey := none, error := some m }, [.getItem k])
  | .errDict m =>
    ({ status := "error".toList, message := none, itemKey := none
       collectionKey := none, error := some m }, [.getItem k])
  | .ok cols v =>
    if cols.contains ck then
      let newCols := cols.filter fun c => c != ck
      match cl.patchRes k newCols v with
      | none =>
        ({ status := "success".toList, message := none, itemKey := some k
           collectionKey := some ck, error := none },
         [.getItem k, .patchCollections k newCols v])
      | some m =>
        ({ status := "error".toList, message := none, itemKey := none
           collectionKey := none, error := some m },
         [.getItem k, .patchCollections k newCols v])
    else
      ({ status := "success".toList
         message := some "Item not in collection".toList
         itemKey := none, collectionKey := none, error := none },
       [.getItem k])

end ZC

namespace ZC

/-! ## Citation-database adapter (`PubMedClient.export_citation`) -/

/-- The article-detail record the formatters read (absent keys are
`none`; a `some` in `error` models `"error" in details`). -/
structure PMDetails where
  error : Option Str
  pmid : Option Str
  title : Option Str
  authors : List Str
  journal : Option Str
  publicationYear : Option Str
  doi : Option Str
  deriving DecidableEq, Repr

/-- `PubMedClient._format_bibtex`. -/
def pm_format_bibtex (d : PMDetails) : Str :=
  let pmid := d.pmid.getD []
  let title := d.title.getD []
  let journal := d.journal.getD []
  let year := d.publicationYear.getD []
  let doi := d.doi.getD []
  let authorStr :=
    if d.authors.isEmpty then []
    else List.intercalate " and ".toList d.authors
  let base :=
    "@article".toList ++ [lbrace] ++ "pmid".toList ++ pmid ++
    ",\n  title = ".toList ++ [lbrace] ++ title ++ [rbrace] ++
    ",\n  author = ".toList ++ [lbrace] ++ authorStr ++ [rbrace] ++
    ",\n  journal = ".toList ++ [lbrace] ++ journal ++ [rbrace] ++
    ",\n  year = ".toList ++ [lbrace] ++ year ++ [rbrace] ++ ",".toList
  let withDoi :=
    if !doi.isEmpty then
      base ++ "\n  doi = ".toList ++ [lbrace] ++ doi ++ [rbrace] ++ ",".toList
    else base
  withDoi ++ "\n  pmid = ".toList ++ [lbrace] ++ pmid ++ [rbrace] ++
    "\n".toList ++ [rbrace]

/-- `PubMedClient._format_apa`. -/
def pm_format_apa (d : PMDetails) : Str :=
  let year := d.publicationYear.getD "n.d.".toList
  let title := d.title.getD []
  let journal := d.journal.getD []
  let doi := d.doi.getD []
  let authorStr :=
    if d.authors.isEmpty then "Author Unknown".toList
    else
      let j := List.intercalate ", ".toList (d.authors.take 7)
      if 7 < d.authors.length then j ++ ", et al.".toList else j
  let citation :=
    authorStr ++ " (".toList ++ year ++ "). ".toList ++ title ++
    ". ".toList ++ journal ++ ".".toList
  if !doi.isEmpty then citation ++ " https://doi.org/".toList ++ doi
  else citation

/-- `PubMedClient._format_mla`. -/
def pm_format_mla (d : PMDetails) : Str :=
  let title := d.title.getD []
  let journal := d.journal.getD []
  let year := d.publicationYear.getD []
  let authorStr :=
    match d.authors with
    | [] => "Unknown".toList
    | a :: rest => if rest.isEmpty then a else a ++ ", et al.".toList
  authorStr ++ ". \"".toList ++ title ++ ".\" ".toList ++ journal ++
    ", ".toList ++ year ++ ".".toList

/-- `PubMedClient._format_chicago`. -/
def pm_format_chicago (d : PMDetails) : Str :=
  let title := d.title.getD []
  let journal := d.journal.getD []
  let year := d.publicationYear.getD []
  let authorStr :=
    if d.authors.isEmpty then "Unknown".toList
    else List.intercalate ", ".toList d.authors
  authorStr ++ ". ".toList ++ year ++ ". \"".toList ++ title ++
    ".\" ".toList ++ journal ++ ".".toList

/-- `PubMedClient._format_ris`. -/
def pm_format_ris (d : PMDetails) : Str :=
  let doiLine :=
    match d.doi with
    | some x => if !x.isEmpty then "DO  - ".toList ++ x ++ "\n".toList else []
    | none => []
  "TY  - JOUR\n".toList ++
  "TI  - ".toList ++ d.title.getD [] ++ "\n".toList ++
  (d.authors.flatMap fun a => "AU  - ".toList ++ a ++ "\n".toList) ++
  "JO  - ".toList ++ d.journal.getD [] ++ "\n".toList ++
  "PY  - ".toList ++ d.publicationYear.getD [] ++ "\n".toList ++
  doiLine ++
  "UR  - https://pubmed.ncbi.nlm.nih.gov/".toList ++ d.pmid.getD [] ++
  "/\n".toList ++
  "ER  - \n".toList

/-- Oracle: what `get_article_details` returns per PMID. -/
structure PMClient where
  getArticleDetails : Str → PMDetails

/-- A remote call of the citation-database adapter. -/
inductive PMEffect
  | getDetails (pmid : Str)
  deriving DecidableEq, Repr

/-- Result of `export_citation`: a returned string or a raised
`ValueError`. -/
inductive PMExport
  | ok (s : Str)
  | valueError (msg : Str)
  deriving DecidableEq, Repr

/-- `PubMedClient.export_citation`: fetch the article details, return
an error string when the details carry an error, otherwise dispatch on
the format, raising `ValueError` for an unsupported one.  The second
component lists the remote calls performed. -/
def export_citation (cl : PMClient) (pmid fmt : Str) :
    PMExport × List PMEffect :=
  let d := cl.getArticleDetails pmid
  match d.error with
  | some e => (.ok ("Error: ".toList ++ e), [.getDetails pmid])
  | none =>
    if fmt == "bibtex".toList then (.ok (pm_format_bibtex d), [.getDetails pmid])
    else if fmt == "apa".toList then (.ok (pm_format_apa d), [.getDetails pmid])
    else if fmt == "mla".toList then (.ok (pm_format_mla d), [.getDetails pmid])
    else if fmt == "chicago".toList then
      (.ok (pm_format_chicago d), [.getDetails pmid])
    else if fmt == "ris".toList then
      (.ok (pm_format_ris d), [.getDetails pmid])
    else
      (.valueError ("Unsupported format: ".toList ++ fmt ++
        ". Use: bibtex, apa, mla, chicago, ris".toList),
       [.getDetails pmid])

end ZC

namespace ZC

/-! ## Auxiliary predicates and concrete fixtures -/

/-- Four consecutive digits occur at position `i` of `s`. -/
def fourAt (s : Str) (i : Nat) : Prop := fourDigitsHere (s.drop i) = true

instance (s : Str) (i : Nat) : Decidable (fourAt s i) := by
  unfold fourAt; infer_instance

/-- Two institutional records with distinct DOIs but the same title. -/
def pubA : Pub :=
  { doi := some "10.1/a".toList, title := "Same Title".toList, payload := 1 }

def pubB : Pub :=
  { doi := some "10.1/b".toList, title := "Same Title".toList, payload := 2 }

/-- A workflow client whose every remote operation returns nothing. -/
def wfC0 : WfClient :=
  { searchItems := fun _ _ => []
    listCollections := []
    getCollectionItems := fun _ => []
    searchByTag := fun _ => [] }

def paper2024 : Paper :=
  { key := some "K1".toList, title := some "Paper A".toList
    date := some "2024-01-15".toList, creators := [], DOI := none
    doi := none, itemType := none, publicationTitle := none
    publisher := none }

def paper2022 : Paper :=
  { key := some "K2".toList, title := some "Paper B".toList
    date := some "2022".toList, creators := [], DOI := none
    doi := none, itemType := none, publicationTitle := none
    publisher := none }

/-- A workflow client whose search returns one 2024 and one 2022
paper. -/
def wfC2 : WfClient :=
  { searchItems := fun _ _ => [paper2024, paper2022]
    listCollections := []
    getCollectionItems := fun _ => []
    searchByTag := fun _ => [] }

/-- A Zotero client: every item exists, belongs only to collection
"C2" at version 3, and every patch succeeds. -/
def zC1 : ZClient :=
  { fetchItem := fun _ => .ok ["C2".toList] 3
    patchRes := fun _ _ _ => none }

/-- A citation-database client returning a fixed error-free detail
record. -/
def pmC1 : PMClient :=
  { getArticleDetails := fun _ =>
      { error := none, pmid := some "32634507".toList
        title := some "A title".toList, authors := []
        journal := none, publicationYear := none, doi := none } }

end ZC

namespace ZC

/-! ## Lemmas about the string primitives -/

theorem drop_takeWhile_length (p : Char → Bool) (l : Str) :
    l.drop (l.takeWhile p).length = l.dropWhile p := by
  induction l with
  | nil => rfl
  | cons c t ih =>
    by_cases h : p c
    · simpa [List.takeWhile_cons, List.dropWhile_cons, h] using ih
    · simp [List.takeWhile_cons, List.dropWhile_cons, h]

theorem takeWhile_all_append (p : Char → Bool) (ds : Str) (x : Char)
    (r : Str) (h : ∀ c ∈ ds, p c = true) (hx : p x = false) :
    (ds ++ x :: r).takeWhile p = ds := by
  induction ds with
  | nil => simp [List.takeWhile_cons, hx]
  | cons c t ih =>
    have hc : p c = true := h c (by simp)
    simp only [List.cons_append, List.takeWhile_cons, hc, if_true]
    rw [ih fun a ha => h a (by simp [ha])]

theorem matchDoiStart_iff (y : Str) : matchDoiStart y = true ↔ DoiShape y := by
  constructor
  · intro h
    unfold matchDoiStart at h
    split at h
    case h_2 => exact absurd h (by simp)
    case h_1 rest =>
      simp only [Bool.and_eq_true, decide_eq_true_eq] at h
      obtain ⟨h4, hm⟩ := h
      split at hm
      case h_2 => exact absurd hm (by simp)
      case h_1 tail heq =>
        refine ⟨rest.takeWhile Char.isDigit, tail, ?_, h4, ?_⟩
        · rw [drop_takeWhile_length] at heq
          have hsplit :
              rest = rest.takeWhile Char.isDigit ++ '/' :: tail := by
            conv_lhs => rw [← List.takeWhile_append_dropWhile
              (p := Char.isDigit) (l := rest)]
            rw [heq]
          exact congrArg (fun l => '1' :: '0' :: '.' :: l) hsplit
        · intro c hc
          exact List.mem_takeWhile_imp hc
  · rintro ⟨ds, rest, rfl, h4, hd⟩
    have ht : ((ds ++ '/' :: rest).takeWhile Char.isDigit) = ds :=
      takeWhile_all_append _ _ _ _ (fun c hc => hd c hc) (by decide)
    unfold matchDoiStart
    simp only [ht, List.drop_left, Bool.and_eq_true, decide_eq_true_eq]
    exact ⟨h4, trivial⟩

end ZC

namespace ZC

theorem lstrip_head_not_space (s : Str) (c : Char) (t : Str)
    (h : lstrip s = c :: t) : isPySpace c = false := by
  induction s with
  | nil => simp [lstrip] at h
  | cons a r ih =>
    by_cases ha : isPySpace a = true
    · apply ih
      simpa [lstrip, List.dropWhile_cons, ha] using h
    · rw [Bool.not_eq_true] at ha
      unfold lstrip at h
      rw [List.dropWhile_cons] at h
      simp only [ha, Bool.false_eq_true, if_false, List.cons.injEq] at h
      rw [← h.1]
      exact ha

theorem lstrip_of_not_space (c : Char) (t : Str) (h : isPySpace c = false) :
    lstrip (c :: t) = c :: t := by
  unfold lstrip
  rw [List.dropWhile_cons]
  simp [h]

theorem rstrip_cons (c : Char) (t : Str) :
    rstrip (c :: t) =
      if (rstrip t).isEmpty && isPySpace c then [] else c :: rstrip t := rfl

theorem rstrip_idem (s : Str) : rstrip (rstrip s) = rstrip s := by
  induction s with
  | nil => rfl
  | cons c t ih =>
    rw [rstrip_cons]
    by_cases h : ((rstrip t).isEmpty && isPySpace c) = true
    · simp only [h, if_true]
      rfl
    · rw [Bool.not_eq_true] at h
      simp only [h, Bool.false_eq_true, if_false]
      rw [rstrip_cons, ih, h, if_neg (by simp)]

theorem pyStrip_idem (s : Str) : pyStrip (pyStrip s) = pyStrip s := by
  unfold pyStrip
  cases h : lstrip s with
  | nil => rfl
  | cons c t =>
    have hc := lstrip_head_not_space s c t h
    rw [rstrip_cons]
    by_cases hcond : ((rstrip t).isEmpty && isPySpace c) = true
    · simp only [hcond, if_true]
      rfl
    · rw [Bool.not_eq_true] at hcond
      simp only [hcond, Bool.false_eq_true, if_false]
      rw [lstrip_of_not_space c (rstrip t) hc, rstrip_cons,
        rstrip_idem t, hcond, if_neg (by simp)]

theorem removeAllF_not_contains (pat : Str) :
    ∀ (n : Nat) (s : Str), containsSub pat s = false → removeAllF n pat s = s := by
  intro n
  induction n with
  | zero => intro s _; rfl
  | succ n ih =>
    intro s hs
    cases s with
    | nil => rfl
    | cons c rest =>
      unfold containsSub at hs
      rw [Bool.or_eq_false_iff] at hs
      unfold removeAllF
      rw [if_neg (by simp [hs.1]), ih rest hs.2]

theorem removeAll_not_contains (pat s : Str)
    (h : containsSub pat s = false) : removeAll pat s = s :=
  removeAllF_not_contains pat s.length s h

theorem normalize_doi_some (x y : Str) (h : normalize_doi x = some y) :
    y = doiPipeline x ∧ matchDoiStart y = true := by
  unfold normalize_doi at h
  simp only [] at h
  by_cases hm : matchDoiStart (doiPipeline x) = true
  · rw [if_pos hm] at h
    cases h
    exact ⟨rfl, hm⟩
  · rw [if_neg hm] at h
    cases h

theorem pyStrip_doiPipeline (x : Str) :
    pyStrip (doiPipeline x) = doiPipeline x := by
  unfold doiPipeline
  exact pyStrip_idem _

end ZC

namespace ZC

theorem fourAt_zero (s : Str) : fourAt s 0 ↔ fourDigitsHere s = true := by
  unfold fourAt
  rw [List.drop_zero]

theorem fourAt_succ (c : Char) (s : Str) (i : Nat) :
    fourAt (c :: s) (i + 1) ↔ fourAt s i := by
  unfold fourAt
  rw [List.drop_succ_cons]

theorem findRun4_iff (s : Str) : ∀ ds : Str,
    findRun4 s = some ds ↔
      ∃ i, fourAt s i ∧ (∀ j, j < i → ¬ fourAt s j) ∧
        ds = (s.drop i).take 4 := by
  induction s with
  | nil =>
    intro ds
    constructor
    · intro h
      cases h
    · rintro ⟨i, hi, -, -⟩
      exact absurd hi (by unfold fourAt; simp [fourDigitsHere])
  | cons c rest ih =>
    intro ds
    unfold findRun4
    by_cases h : fourDigitsHere (c :: rest) = true
    · rw [if_pos h]
      constructor
      · intro he
        cases he
        exact ⟨0, (fourAt_zero _).mpr h, fun j hj => absurd hj (by omega),
          by rw [List.drop_zero]⟩
      · rintro ⟨i, hi, hmin, rfl⟩
        have hz : i = 0 := by
          by_contra hne
          exact hmin 0 (Nat.pos_of_ne_zero hne) ((fourAt_zero _).mpr h)
        subst hz
        rw [List.drop_zero]
    · rw [if_neg h]
      rw [ih ds]
      constructor
      · rintro ⟨i, hi, hmin, rfl⟩
        refine ⟨i + 1, (fourAt_succ c rest i).mpr hi, ?_,
          by rw [List.drop_succ_cons]⟩
        intro j hj
        cases j with
        | zero => exact fun hj0 => h ((fourAt_zero _).mp hj0)
        | succ j' =>
          exact fun hjs => hmin j' (by omega) ((fourAt_succ c rest j').mp hjs)
      · rintro ⟨i, hi, hmin, rfl⟩
        cases i with
        | zero => exact absurd ((fourAt_zero _).mp hi) h
        | succ i' =>
          refine ⟨i', (fourAt_succ c rest i').mp hi, ?_,
            by rw [List.drop_succ_cons]⟩
          intro j hj hfa
          exact hmin (j + 1) (by omega) ((fourAt_succ c rest j).mpr hfa)

theorem pm_extract_year_eq (s : Str) :
    pm_extract_year s = (findRun4 s).map digitsToNat := by
  cases s with
  | nil => rfl
  | cons c rest =>
    unfold pm_extract_year
    cases hf : findRun4 (c :: rest) <;> simp [List.isEmpty, hf]

end ZC

namespace ZC

/-! ## Claim C2 -/

/-- C2, counterexample.  The claim says `_normalize_doi` strips only a
*leading* prefix and rejects an empty remainder (`10\.\d{4,}/.+`).  The
code instead removes every occurrence of the markers and accepts an
empty remainder: on "10.1234/" it returns the string where the claim
returns null, and on "10.1234/doi:x" it deletes the interior "doi:"
where the claim leaves the string unchanged. -/
theorem C2_normalize_doi_counterexample :
    normalize_doi "10.1234/".toList = some "10.1234/".toList ∧
    specNormalizeDoi "10.1234/".toList = none ∧
    normalize_doi "10.1234/doi:x".toList = some "10.1234/x".toList ∧
    specNormalizeDoi "10.1234/doi:x".toList =
      some "10.1234/doi:x".toList ∧
    ("10.1234/x".toList : Str) ≠ "10.1234/doi:x".toList :=
  ⟨by decide, by decide, by decide, by decide, by decide⟩

/-- C2, amended.  `_normalize_doi` is total; it removes *every*
occurrence of "https://doi.org/", then "http://doi.org/", then "doi:",
trims whitespace (the `doiPipeline`), and returns the result exactly
when it starts with "10." followed by four or more digits and a '/'
(possibly empty remainder); otherwise it returns null. -/
theorem C2_normalize_doi (s : Str) :
    (normalize_doi s = none ↔ ¬ DoiShape (doiPipeline s)) ∧
    ∀ y, normalize_doi s = some y → y = doiPipeline s ∧ DoiShape y := by
  constructor
  · unfold normalize_doi
    simp only []
    by_cases hm : matchDoiStart (doiPipeline s) = true
    · rw [if_pos hm]
      exact iff_of_false (by simp)
        (not_not_intro ((matchDoiStart_iff _).mp hm))
    · rw [if_neg hm]
      exact iff_of_true rfl fun hs => hm ((matchDoiStart_iff _).mpr hs)
  · intro y hy
    obtain ⟨h1, h2⟩ := normalize_doi_some s y hy
    exact ⟨h1, (matchDoiStart_iff y).mp h2⟩

/-- C2, witness: the amended theorem applied to "doi:10.1234/test". -/
theorem C2_normalize_doi_witness :
    "10.1234/test".toList = doiPipeline "doi:10.1234/test".toList ∧
    DoiShape "10.1234/test".toList :=
  (C2_normalize_doi "doi:10.1234/test".toList).2
    "10.1234/test".toList (by decide)

/-! ## Claim C3 -/

/-- C3, counterexample.  Idempotence fails: removing "doi:" everywhere
can splice a new "doi:" together, so a first pass can return a string
that a second pass changes. -/
theorem C3_normalize_idem_counterexample :
    normalize_doi "10.1234/dodoi:i:x".toList =
      some "10.1234/doi:x".toList ∧
    normalize_doi "10.1234/doi:x".toList = some "10.1234/x".toList ∧
    ("10.1234/x".toList : Str) ≠ "10.1234/doi:x".toList :=
  ⟨by decide, by decide, by decide⟩

/-- C3, amended.  `_normalize_doi` is idempotent on every input whose
first (non-null) pass returns a string containing no occurrence of
"https://doi.org/", "http://doi.org/" or "doi:". -/
theorem C3_normalize_idem (x y : Str) (h : normalize_doi x = some y)
    (h1 : containsSub httpsPref y = false)
    (h2 : containsSub httpPref y = false)
    (h3 : containsSub doiColon y = false) :
    normalize_doi y = some y := by
  obtain ⟨hy, hm⟩ := normalize_doi_some x y h
  have hp : doiPipeline y = y := by
    unfold doiPipeline
    rw [removeAll_not_contains _ _ h1, removeAll_not_contains _ _ h2,
      removeAll_not_contains _ _ h3, hy]
    exact pyStrip_doiPipeline x
  unfold normalize_doi
  simp only []
  rw [hp, if_pos hm]

/-- C3, witness: the amended theorem applied to "10.1234/abc". -/
theorem C3_normalize_idem_witness :
    normalize_doi "10.1234/abc".toList = some "10.1234/abc".toList :=
  C3_normalize_idem "10.1234/abc".toList "10.1234/abc".toList
    (by decide) (by decide) (by decide) (by decide)

/-! ## Claim C4 -/

/-- C4, counterexample.  Both helpers return the first four consecutive
digits even inside the longer digit run "12345", where no run of
exactly four digits exists (the claimed behaviour yields null); and on
the empty string the workflow helper returns the integer 0, not
null. -/
theorem C4_extract_year_counterexample :
    wf_extract_year "".toList = 0 ∧
    pm_extract_year "12345".toList = some 1234 ∧
    wf_extract_year "12345".toList = 1234 ∧
    specExtractYear "12345".toList = none :=
  ⟨by decide, by decide, by decide, by decide⟩

/-- C4, amended.  Both helpers are total and find the *first position*
with four consecutive digits (even inside a longer run), returning the
number those four digits denote; when there is none the citation-
database helper returns null and the workflow helper returns the
sentinel 0; the two helpers agree whenever the former returns a
year. -/
theorem C4_extract_year (s : Str) :
    (∀ n, pm_extract_year s = some n ↔
      ∃ i, fourAt s i ∧ (∀ j, j < i → ¬ fourAt s j) ∧
        n = digitsToNat ((s.drop i).take 4)) ∧
    (pm_extract_year s = none → wf_extract_year s = 0) ∧
    (∀ n, pm_extract_year s = some n → wf_extract_year s = n) := by
  refine ⟨?_, ?_, ?_⟩
  · intro n
    rw [pm_extract_year_eq]
    constructor
    · intro h
      cases hf : findRun4 s with
      | none => rw [hf] at h; cases h
      | some ds =>
        rw [hf] at h
        obtain ⟨i, hi, hmin, hds⟩ := (findRun4_iff s ds).mp hf
        cases h
        exact ⟨i, hi, hmin, by rw [hds]⟩
    · rintro ⟨i, hi, hmin, rfl⟩
      rw [(findRun4_iff s _).mpr ⟨i, hi, hmin, rfl⟩]
      rfl
  · intro h
    rw [pm_extract_year_eq] at h
    unfold wf_extract_year
    cases hf : findRun4 s with
    | none => rfl
    | some ds => rw [hf] at h; cases h
  · intro n h
    rw [pm_extract_year_eq] at h
    unfold wf_extract_year
    cases hf : findRun4 s with
    | none => rw [hf] at h; cases h
    | some ds =>
      rw [hf] at h
      cases h
      rfl

/-- C4, witness: the amended theorem applied to "January 2022". -/
theorem C4_extract_year_witness :
    wf_extract_year "January 2022".toList = 2022 :=
  (C4_extract_year "January 2022".toList).2.2 2022 (by decide)

end ZC

namespace ZC

theorem beqComm {α : Type} [BEq α] [LawfulBEq α] [DecidableEq α]
    (a b : α) : (a == b) = (b == a) := by
  rcases eq_or_ne a b with rfl | h
  · rfl
  · rw [beq_eq_false_iff_ne.mpr h, beq_eq_false_iff_ne.mpr h.symm]

/-- The title part of the loop bodies of `dedupGo` and
`amendedDedupGo` agree, given the invariant that `seenT` holds exactly
the non-empty title keys of the kept records. -/
theorem dedupTitle_eq (rest : List Pub) (pub : Pub) (seenD' seenT : List Str)
    (kept : List Pub)
    (ih : ∀ (seenT₂ : List Str) (kept₂ : List Pub),
      (∀ tk : Str, tk ≠ [] →
        seenT₂.contains tk = kept₂.any fun q => titleKeyOf q.title == tk) →
      dedupGo rest seenD' seenT₂ = amendedDedupGo seenD' kept₂ rest)
    (hinv : ∀ tk : Str, tk ≠ [] →
      seenT.contains tk = kept.any fun q => titleKeyOf q.title == tk) :
    (if (titleKeyOf pub.title).isEmpty then pub :: dedupGo rest seenD' seenT
     else if seenT.contains (titleKeyOf pub.title) then
       dedupGo rest seenD' seenT
     else pub :: dedupGo rest seenD' (titleKeyOf pub.title :: seenT)) =
    (if !(titleKeyOf pub.title).isEmpty &&
        (kept.any fun q => titleKeyOf q.title == titleKeyOf pub.title) then
       amendedDedupGo seenD' kept rest
     else pub :: amendedDedupGo seenD' (kept ++ [pub]) rest) := by
  by_cases he : (titleKeyOf pub.title).isEmpty = true
  · have htknil : titleKeyOf pub.title = [] := List.isEmpty_iff.mp he
    rw [if_pos he, if_neg (by simp [he])]
    congr 1
    apply ih
    intro tk' h'
    rw [hinv tk' h', List.any_append, List.any_cons, List.any_nil,
      htknil, beq_eq_false_iff_ne.mpr (Ne.symm h')]
    simp
  · have htkne : titleKeyOf pub.title ≠ [] := by
      intro hnil
      exact he (by simp [hnil])
    rw [if_neg he]
    by_cases hc : seenT.contains (titleKeyOf pub.title) = true
    · rw [if_pos hc]
      have hany : (kept.any fun q => titleKeyOf q.title == titleKeyOf pub.title) = true := by
        rw [← hinv _ htkne]
        exact hc
      rw [if_pos (by simp [he, hany])]
      exact ih seenT kept hinv
    · rw [if_neg hc]
      have hany : (kept.any fun q => titleKeyOf q.title == titleKeyOf pub.title) = false := by
        rw [← hinv _ htkne]
        exact Bool.not_eq_true _ ▸ (by simpa using hc)
      rw [if_neg (by simp [hany])]
      congr 1
      apply ih
      intro tk' h'
      rw [List.contains_cons, hinv tk' h', List.any_append, List.any_cons,
        List.any_nil, beqComm tk' (titleKeyOf pub.title)]
      cases hb : (titleKeyOf pub.title == tk') <;> simp

/-- The deduplication loop equals its amended description whenever
`seenT` holds exactly the non-empty title keys of the kept records. -/
theorem dedupGo_eq_amendedGo (pubs : List Pub) :
    ∀ (seenD seenT : List Str) (kept : List Pub),
    (∀ tk : Str, tk ≠ [] →
      seenT.contains tk = kept.any fun q => titleKeyOf q.title == tk) →
    dedupGo pubs seenD seenT = amendedDedupGo seenD kept pubs := by
  induction pubs with
  | nil => intro seenD seenT kept _; rfl
  | cons pub rest ih =>
    intro seenD seenT kept hinv
    cases hd : pub.doi with
    | none =>
      show dedupGo (pub :: rest) seenD seenT = amendedDedupGo seenD kept (pub :: rest)
      unfold dedupGo amendedDedupGo
      simp only [hd, doiTruthy, Bool.false_and, Bool.false_eq_true, if_false]
      exact dedupTitle_eq rest pub seenD seenT kept (fun a b h => ih seenD a b h) hinv
    | some d =>
      by_cases he : d.isEmpty = true
      · unfold dedupGo amendedDedupGo
        simp only [hd, doiTruthy, he, Bool.not_true, Bool.false_and,
          Bool.false_eq_true, if_false, if_pos]
        exact dedupTitle_eq rest pub seenD seenT kept (fun a b h => ih seenD a b h) hinv
      · have he' : d.isEmpty = false := by simpa using he
        by_cases hc : seenD.contains (doiKeyOf d) = true
        · unfold dedupGo amendedDedupGo
          simp only [hd, doiTruthy, he', hc, Bool.not_false, Bool.true_and,
            if_true, if_false]
          exact ih seenD seenT kept hinv
        · have hc' : seenD.contains (doiKeyOf d) = false := by simpa using hc
          unfold dedupGo amendedDedupGo
          simp only [hd, doiTruthy, he', hc', Bool.not_false, Bool.true_and,
            Bool.false_eq_true, if_false]
          exact dedupTitle_eq rest pub (doiKeyOf d :: seenD) seenT kept
            (fun a b h => ih (doiKeyOf d :: seenD) a b h) hinv

end ZC

namespace ZC

/-! ## Claim C1 -/

/-- C1, counterexample.  Two records carrying distinct DOIs but the
same title ARE merged by `_deduplicate`, because the title-key check
runs regardless of DOI presence; the claimed invariant (title matching
only when a DOI is absent) would keep both. -/
theorem C1_deduplicate_counterexample :
    pubA.doi ≠ pubB.doi ∧
    deduplicate [pubA, pubB] = [pubA] ∧
    specDedup [pubA, pubB] = [pubA, pubB] :=
  ⟨by decide, by decide, by decide⟩

/-- C1, amended.  `_deduplicate` keeps a record iff (a) its non-empty
DOI key (lower-cased, stripped) differs from the DOI keys of every
earlier record that itself survived the DOI check — including records
later dropped by the title check — and (b) its non-empty normalized
title key differs from the title keys of all earlier *kept* records,
the title comparison applying regardless of DOI presence.  Formally the
code's fold equals `amendedDedup`, which implements exactly that
description. -/
theorem C1_deduplicate_amended (pubs : List Pub) :
    deduplicate pubs = amendedDedup pubs :=
  dedupGo_eq_amendedGo pubs [] [] [] fun _ _ => rfl

end ZC

namespace ZC

/-! ## Claim C5 -/

/-- C5, counterexample.  `smart_add_paper` searches by the *normalized*
DOI, not by the raw input string: for raw input "doi:10.1234/test" the
single search call uses "10.1234/test". -/
theorem C5_smart_add_counterexample :
    (smart_add_paper wfC0 "doi:10.1234/test".toList true true).2 =
      [WfEffect.search "10.1234/test".toList 5] ∧
    "10.1234/test".toList ≠ "doi:10.1234/test".toList :=
  ⟨by decide, by decide⟩

/-- C5, amended.  On a DOI that fails normalization, `smart_add_paper`
returns status "error" and performs no remote call at all; on a
well-formed DOI with duplicate checking it performs exactly one search,
by the *normalized* DOI with limit 5, returns "duplicate" with the
first matching item's key when some result's normalized DOI equals the
input's case-insensitively, and returns "ready" (no write, no further
call) otherwise. -/
theorem C5_smart_add_paper (cl : WfClient) (rawDoi : Str) (cd sg : Bool) :
    (normalize_doi rawDoi = none →
      (smart_add_paper cl rawDoi cd sg).1.status = AddStatus.error ∧
      (smart_add_paper cl rawDoi cd sg).2 = []) ∧
    (∀ d, normalize_doi rawDoi = some d →
      (smart_add_paper cl rawDoi true sg).2 = [WfEffect.search d 5] ∧
      ((smart_add_paper cl rawDoi true sg).1.status = AddStatus.duplicate ↔
        ∃ p ∈ cl.searchItems d 5, dupMatch d p = true) ∧
      (∀ p, (cl.searchItems d 5).find? (dupMatch d) = some p →
        (smart_add_paper cl rawDoi true sg).1.duplicateKey =
          some (p.key.getD [])) ∧
      ((∀ p ∈ cl.searchItems d 5, dupMatch d p = false) →
        (smart_add_paper cl rawDoi true sg).1.status = AddStatus.ready)) := by
  constructor
  · intro h
    unfold smart_add_paper
    rw [h]
    exact ⟨rfl, rfl⟩
  · intro d h
    simp only [smart_add_paper, h, eq_self_iff_true, if_true]
    cases hf : (cl.searchItems d 5).find? (dupMatch d) with
    | none =>
      refine ⟨rfl, ?_, ?_, fun _ => rfl⟩
      · refine iff_of_false (fun hs => AddStatus.noConfusion hs) ?_
        rintro ⟨p, hp, hm⟩
        rw [List.find?_eq_none] at hf
        exact absurd hm (by simp [hf p hp])
      · intro p hp
        exact Option.noConfusion hp
    | some p =>
      refine ⟨rfl,
        iff_of_true rfl ⟨p, List.mem_of_find?_eq_some hf, List.find?_some hf⟩,
        ?_, ?_⟩
      · intro p' hp'
        cases hp'
        rfl
      · intro hall
        exact absurd (List.find?_some hf)
          (by simp [hall p (List.mem_of_find?_eq_some hf)])

/-- C5, witness: the amended theorem applied to a malformed DOI (error,
no call) and to "10.1234/test" over an empty library (ready). -/
theorem C5_smart_add_paper_witness :
    ((smart_add_paper wfC0 "invalid".toList true true).1.status =
        AddStatus.error ∧
      (smart_add_paper wfC0 "invalid".toList true true).2 = []) ∧
    (smart_add_paper wfC0 "10.1234/test".toList true true).1.status =
      AddStatus.ready :=
  ⟨(C5_smart_add_paper wfC0 "invalid".toList true true).1 (by decide),
   ((C5_smart_add_paper wfC0 "10.1234/test".toList true true).2
      "10.1234/test".toList (by decide)).2.2.2
     (fun p hp => by simp [wfC0] at hp)⟩

end ZC

namespace ZC

theorem addItemsGo_spec (cl : ZClient) (ck : Str) (keys : List Str) :
    (addItemsGo cl ck keys).2.2.length = keys.length ∧
    (addItemsGo cl ck keys).1 + (addItemsGo cl ck keys).2.1 +
      ((addItemsGo cl ck keys).2.2.countP
        fun dt => dt.2.1 == "already_in_collection".toList) = keys.length ∧
    ∀ k cols v, k ∈ keys → cl.fetchItem k = ItemFetch.ok cols v →
      cols.contains ck = true →
      (k, "already_in_collection".toList, (none : Option Str)) ∈
        (addItemsGo cl ck keys).2.2 := by
  have hEA : ("error".toList == "already_in_collection".toList) = false := by
    decide
  have hAA :
      ("already_in_collection".toList == "already_in_collection".toList) =
        true := by decide
  have hDA : ("added".toList == "already_in_collection".toList) = false := by
    decide
  induction keys with
  | nil =>
    exact ⟨rfl, rfl, fun k _ _ hk => absurd hk (List.not_mem_nil k)⟩
  | cons k rest ih =>
    obtain ⟨ih1, ih2, ih3⟩ := ih
    unfold addItemsGo
    cases hfi : cl.fetchItem k with
    | exn m =>
      refine ⟨by simpa using ih1, ?_, ?_⟩
      · simp only [List.countP_cons, hEA, if_false, Bool.false_eq_true]
        simp only [List.length_cons]
        omega
      · intro k' cols v hk' hfe hct
        rcases List.mem_cons.mp hk' with rfl | hmem
        · rw [hfi] at hfe
          exact ItemFetch.noConfusion hfe
        · exact List.mem_cons_of_mem _ (ih3 k' cols v hmem hfe hct)
    | errDict m =>
      refine ⟨by simpa using ih1, ?_, ?_⟩
      · simp only [List.countP_cons, hEA, if_false, Bool.false_eq_true]
        simp only [List.length_cons]
        omega
      · intro k' cols v hk' hfe hct
        rcases List.mem_cons.mp hk' with rfl | hmem
        · rw [hfi] at hfe
          exact ItemFetch.noConfusion hfe
        · exact List.mem_cons_of_mem _ (ih3 k' cols v hmem hfe hct)
    | ok cols v =>
      by_cases hm : cols.contains ck = true
      · simp only [hm, if_true]
        refine ⟨by simpa using ih1, ?_, ?_⟩
        · simp only [List.countP_cons, hAA, if_true, List.length_cons]
          omega
        · intro k' cols' v' hk' hfe hct
          rcases List.mem_cons.mp hk' with rfl | hmem
          · rw [hfi] at hfe
            cases hfe
            exact List.mem_cons_self _ _
          · exact List.mem_cons_of_mem _ (ih3 k' cols' v' hmem hfe hct)
      · have hm' : cols.contains ck = false := by simpa using hm
        simp only [hm', Bool.false_eq_true, if_false]
        cases hp : cl.patchRes k (cols ++ [ck]) v with
        | none =>
          refine ⟨by simpa using ih1, ?_, ?_⟩
          · simp only [List.countP_cons, hDA, if_false, Bool.false_eq_true,
              List.length_cons]
            omega
          · intro k' cols' v' hk' hfe hct
            rcases List.mem_cons.mp hk' with rfl | hmem
            · rw [hfi] at hfe
              cases hfe
              rw [hm'] at hct
              exact Bool.noConfusion hct
            · exact List.mem_cons_of_mem _ (ih3 k' cols' v' hmem hfe hct)
        | some m =>
          refine ⟨by simpa using ih1, ?_, ?_⟩
          · simp only [List.countP_cons, hEA, if_false, Bool.false_eq_true,
              List.length_cons]
            omega
          · intro k' cols' v' hk' hfe hct
            rcases List.mem_cons.mp hk' with rfl | hmem
            · rw [hfi] at hfe
              cases hfe
              rw [hm'] at hct
              exact Bool.noConfusion hct
            · exact List.mem_cons_of_mem _ (ih3 k' cols' v' hmem hfe hct)

end ZC

namespace ZC

theorem statusSpec (a f : Nat) :
    ((if 0 < f then (if 0 < a then "partial".toList else "error".toList)
      else "success".toList) = "success".toList ↔ f = 0) ∧
    ((if 0 < f then (if 0 < a then "partial".toList else "error".toList)
      else "success".toList) = "partial".toList ↔ 0 < a ∧ 0 < f) ∧
    ((if 0 < f then (if 0 < a then "partial".toList else "error".toList)
      else "success".toList) = "error".toList ↔ a = 0 ∧ 0 < f) := by
  rcases Nat.eq_zero_or_pos f with hf | hf
  · rw [if_neg (by omega)]
    exact ⟨iff_of_true rfl hf, iff_of_false (by decide) (by omega),
      iff_of_false (by decide) (by omega)⟩
  · rw [if_pos hf]
    rcases Nat.eq_zero_or_pos a with ha | ha
    · rw [if_neg (by omega)]
      exact ⟨iff_of_false (by decide) (by omega),
        iff_of_false (by decide) (by omega), iff_of_true rfl ⟨ha, hf⟩⟩
    · rw [if_pos ha]
      exact ⟨iff_of_false (by decide) (by omega), iff_of_true rfl ⟨ha, hf⟩,
        iff_of_false (by decide) (by omega)⟩

/-! ## Claim C6 -/

/-- C6.  `add_items_to_collection` processes the whole batch (one
detail row per input key, no abort), reports "success" iff no failure,
"partial" iff some success and some failure, "error" iff no success and
some failure; an item already in the target collection gets detail
status "already_in_collection" and is counted in neither `added` nor
`failed` (the three tallies partition the batch). -/
theorem C6_add_items_to_collection (cl : ZClient) (ck : Str)
    (keys : List Str) :
    ((add_items_to_collection cl ck keys).details.length = keys.length) ∧
    ((add_items_to_collection cl ck keys).status = "success".toList ↔
      (add_items_to_collection cl ck keys).failed = 0) ∧
    ((add_items_to_collection cl ck keys).status = "partial".toList ↔
      0 < (add_items_to_collection cl ck keys).added ∧
      0 < (add_items_to_collection cl ck keys).failed) ∧
    ((add_items_to_collection cl ck keys).status = "error".toList ↔
      ((add_items_to_collection cl ck keys).added = 0 ∧
       0 < (add_items_to_collection cl ck keys).failed)) ∧
    ((add_items_to_collection cl ck keys).added +
      (add_items_to_collection cl ck keys).failed +
      ((add_items_to_collection cl ck keys).details.countP
        fun dt => dt.2.1 == "already_in_collection".toList) =
      keys.length) ∧
    (∀ k cols v, k ∈ keys → cl.fetchItem k = ItemFetch.ok cols v →
      cols.contains ck = true →
      (k, "already_in_collection".toList, (none : Option Str)) ∈
        (add_items_to_collection cl ck keys).details) := by
  obtain ⟨h1, h2, h3⟩ := addItemsGo_spec cl ck keys
  obtain ⟨s1, s2, s3⟩ :=
    statusSpec (addItemsGo cl ck keys).1 (addItemsGo cl ck keys).2.1
  exact ⟨h1, s1, s2, s3, h2, h3⟩

/-- C6, witness: an item already in the target collection is recorded
with detail status "already_in_collection". -/
theorem C6_add_items_witness :
    ("K".toList, "already_in_collection".toList, (none : Option Str)) ∈
      (add_items_to_collection zC1 "C2".toList ["K".toList]).details :=
  (C6_add_items_to_collection zC1 "C2".toList ["K".toList]).2.2.2.2.2
    "K".toList ["C2".toList] 3 (by decide) rfl (by decide)

end ZC

namespace ZC

/-! ## Claim C7 -/

/-- C7.  `export_bibliography` with neither selector truthy returns an
error and performs no remote call; with a collection name it never
performs a tag search (or any plain search); with only a tag it
performs exactly the one tag search. -/
theorem C7_export_bibliography (cl : WfClient) (cname tag : Option Str)
    (fmt : Str) :
    (pyTruthy cname = false → pyTruthy tag = false →
      (export_bibliography cl cname tag fmt).1.status = ExportStatus.error ∧
      (export_bibliography cl cname tag fmt).2 = []) ∧
    (pyTruthy cname = true →
      (∀ t, WfEffect.tagSearch t ∉ (export_bibliography cl cname tag fmt).2) ∧
      (∀ q m, WfEffect.search q m ∉ (export_bibliography cl cname tag fmt).2)) ∧
    (pyTruthy cname = false → pyTruthy tag = true →
      (export_bibliography cl cname tag fmt).2 =
        [WfEffect.tagSearch (tag.getD [])]) := by
  refine ⟨?_, ?_, ?_⟩
  · intro h1 h2
    unfold export_bibliography
    rw [if_neg (by simp [h1]), if_neg (by simp [h2])]
    exact ⟨rfl, rfl⟩
  · intro h1
    simp only [export_bibliography, h1, eq_self_iff_true, if_true]
    cases hf : cl.listCollections.find?
        (fun c => c.name == some (cname.getD [])) with
    | none => exact ⟨fun t => by simp, fun q m => by simp⟩
    | some c => exact ⟨fun t => by simp, fun q m => by simp⟩
  · intro h1 h2
    unfold export_bibliography
    rw [if_neg (by simp [h1]), if_pos h2]

/-- C7, witness: neither selector given. -/
theorem C7_export_bibliography_witness :
    (export_bibliography wfC0 none none "bibtex".toList).1.status =
      ExportStatus.error ∧
    (export_bibliography wfC0 none none "bibtex".toList).2 = [] :=
  (C7_export_bibliography wfC0 none none "bibtex".toList).1 rfl rfl

/-! ## Claim C8 -/

/-- C8.  With a positive `min_year`, `build_reading_list` keeps exactly
the search results whose extracted year is at least `min_year` (every
entry with no four-digit group is dropped), truncates to `max_papers`,
and reports `papers_found` as the pre-filter count and
`papers_included` as the post-filter post-truncation count. -/
theorem C8_build_reading_list (cl : WfClient) (topic : Str) (maxP : Nat)
    (n : Int) (h : 1 ≤ n) :
    ((build_reading_list cl topic maxP (some n)).1.papersFound =
      (cl.searchItems topic 100).length) ∧
    ((build_reading_list cl topic maxP (some n)).1.papers =
      (((cl.searchItems topic 100).filter fun (p : Paper) =>
          n ≤ (wf_extract_year (p.date.getD []) : Int)).take maxP).map
        format_paper) ∧
    ((build_reading_list cl topic maxP (some n)).1.papersIncluded =
      min maxP ((cl.searchItems topic 100).filter fun (p : Paper) =>
          n ≤ (wf_extract_year (p.date.getD []) : Int)).length) ∧
    (∀ p ∈ (cl.searchItems topic 100).filter fun (p : Paper) =>
          n ≤ (wf_extract_year (p.date.getD []) : Int),
      findRun4 (p.date.getD []) ≠ none) := by
  have hn : n ≠ 0 := by omega
  refine ⟨?_, ?_, ?_, ?_⟩
  · simp only [build_reading_list]
  · simp only [build_reading_list]
    rw [if_pos hn]
  · simp only [build_reading_list]
    rw [if_pos hn]
    show (List.map format_paper _).length = _
    rw [List.length_map, List.length_take]
  · intro p hp
    rw [List.mem_filter, decide_eq_true_eq] at hp
    intro hnone
    have hy := hp.2
    unfold wf_extract_year at hy
    rw [hnone] at hy
    simp only [Nat.cast_zero] at hy
    omega

/-- C8, witness: two results dated 2024 and 2022, min year 2023: found
2 papers, kept only the 2024 one. -/
theorem C8_build_reading_list_witness :
    (build_reading_list wfC2 "T".toList 20 (some 2023)).1.papersFound = 2 ∧
    (build_reading_list wfC2 "T".toList 20 (some 2023)).1.papers =
      [format_paper paper2024] := by
  have hh := C8_build_reading_list wfC2 "T".toList 20 2023 (by omega)
  exact ⟨hh.1.trans (by decide), (hh.2.1).trans (by decide)⟩

/-! ## Claim C9 -/

/-- C9, counterexample.  For the unsupported format "endnote" the
adapter does perform the article-detail fetch and only then raises the
validation error; the claim says the error comes before any network
call. -/
theorem C9_export_citation_counterexample :
    (export_citation pmC1 "32634507".toList "endnote".toList).1 =
      PMExport.valueError ("Unsupported format: ".toList ++
        "endnote".toList ++ ". Use: bibtex, apa, mla, chicago, ris".toList) ∧
    (export_citation pmC1 "32634507".toList "endnote".toList).2 =
      [PMEffect.getDetails "32634507".toList] ∧
    [PMEffect.getDetails "32634507".toList] ≠ ([] : List PMEffect) :=
  ⟨by decide, by decide, by decide⟩

/-- C9, amended.  For every format outside the five supported ones,
`export_citation` performs exactly one article-detail fetch and *then*
raises the unsupported-format `ValueError` (when the details carry no
error; otherwise it returns the error string without raising). -/
theorem C9_export_citation (cl : PMClient) (pmid fmt : Str)
    (h1 : fmt ≠ "bibtex".toList) (h2 : fmt ≠ "apa".toList)
    (h3 : fmt ≠ "mla".toList) (h4 : fmt ≠ "chicago".toList)
    (h5 : fmt ≠ "ris".toList) :
    (export_citation cl pmid fmt).2 = [PMEffect.getDetails pmid] ∧
    ((cl.getArticleDetails pmid).error = none →
      (export_citation cl pmid fmt).1 =
        PMExport.valueError ("Unsupported format: ".toList ++ fmt ++
          ". Use: bibtex, apa, mla, chicago, ris".toList)) ∧
    (∀ e, (cl.getArticleDetails pmid).error = some e →
      (export_citation cl pmid fmt).1 = PMExport.ok ("Error: ".toList ++ e)) := by
  simp only [export_citation]
  cases he : (cl.getArticleDetails pmid).error with
  | some e =>
    refine ⟨rfl, ?_, ?_⟩
    · intro hn
      exact Option.noConfusion hn
    · intro e' he'
      cases he'
      rfl
  | none =>
    rw [if_neg (by simpa using h1), if_neg (by simpa using h2),
      if_neg (by simpa using h3), if_neg (by simpa using h4),
      if_neg (by simpa using h5)]
    refine ⟨rfl, fun _ => rfl, ?_⟩
    intro e he'
    exact Option.noConfusion he'

/-- C9, witness: the amended theorem applied to format "endnote". -/
theorem C9_export_citation_witness :
    (export_citation pmC1 "1".toList "endnote".toList).2 =
      [PMEffect.getDetails "1".toList] ∧
    (export_citation pmC1 "1".toList "endnote".toList).1 =
      PMExport.valueError ("Unsupported format: ".toList ++
        "endnote".toList ++ ". Use: bibtex, apa, mla, chicago, ris".toList) := by
  have hh := C9_export_citation pmC1 "1".toList "endnote".toList
    (by decide) (by decide) (by decide) (by decide) (by decide)
  exact ⟨hh.1, hh.2.1 rfl⟩

/-! ## Claim C10 -/

/-- C10.  When the item is fetched successfully and the target
collection key is not among its memberships,
`remove_item_from_collection` returns "success" with message
"Item not in collection" and issues no PATCH: the only remote call is
the item fetch. -/
theorem C10_remove_item_noop (cl : ZClient) (ck k : Str)
    (cols : List Str) (v : Nat)
    (hf : cl.fetchItem k = ItemFetch.ok cols v)
    (hnot : cols.contains ck = false) :
    (remove_item_from_collection cl ck k).1 =
      { status := "success".toList
        message := some "Item not in collection".toList
        itemKey := none, collectionKey := none, error := none } ∧
    (remove_item_from_collection cl ck k).2 = [ZEffect.getItem k] := by
  simp only [remove_item_from_collection, hf]
  rw [if_neg (by simpa using hnot)]
  exact ⟨rfl, rfl⟩

/-- C10, witness: item in collection "C2" only, removal from "C1". -/
theorem C10_remove_item_noop_witness :
    (remove_item_from_collection zC1 "C1".toList "K".toList).1 =
      { status := "success".toList
        message := some "Item not in collection".toList
        itemKey := none, collectionKey := none, error := none } ∧
    (remove_item_from_collection zC1 "C1".toList "K".toList).2 =
      [ZEffect.getItem "K".toList] :=
  C10_remove_item_noop zC1 "C1".toList "K".toList ["C2".toList] 3 rfl
    (by decide)

end ZC
